import Mathlib

/-!
Verification of the task ownership and access-control core of the todo-list
repository (Django REST Framework application `tasks_api`).

The embedding below models, from the source:
  * `tasks_api/models.py`   — the `Task` model (title, description, status, user FK);
  * `tasks_api/views.py`    — `TasksViewSet.get_queryset` (admin sees all, others
    see their own, ordered by title) and the `status` filter backend;
  * `tasks_api/permissions.py` — `IsOwnerOrReadOnly.has_object_permission`;
  * `tasks_api/serializers.py` — `TasksSerializer` validation and `create`
    (owner taken from the request, `user` field read-only).

The database is a list of task records plus an auto-increment counter; callers
are authenticated users carrying the `is_staff` flag. HTTP methods are modelled
explicitly because the permission check branches on them.
-/

namespace Todo

/-- Task status enum: the three `STATUS_CHOICES` of `tasks_api/models.py`. -/
inductive Status where
  | new
  | inProgress
  | completed
deriving DecidableEq

/-- Decoding of a raw status string against `STATUS_CHOICES`; any other string
is rejected by the serializer's choice validation. -/
def parseStatus (s : String) : Option Status :=
  if s == "New" then some Status.new
  else if s == "In Progress" then some Status.inProgress
  else if s == "Completed" then some Status.completed
  else none

/-- An authenticated user: the identifier plus the `is_staff` flag the view
consults (`CustomUser` extends Django's `AbstractUser`, which carries
`is_staff`). -/
structure User where
  id : Nat
  is_staff : Bool
deriving DecidableEq

/-- A persisted task record, as in the `Task` model of `tasks_api/models.py`:
`user` stores the id of the owning user (the `ForeignKey`). -/
structure Task where
  id : Nat
  title : String
  description : Option String
  status : Status
  user : Nat
deriving DecidableEq

/-- The task store: existing records plus the next auto-increment primary key. -/
structure Db where
  tasks : List Task
  nextId : Nat
deriving DecidableEq

/-- HTTP methods relevant to the viewset's routes. -/
inductive Method where
  | GET
  | HEAD
  | OPTIONS
  | POST
  | PUT
  | PATCH
  | DELETE
deriving DecidableEq

/-- Read-only methods, as in `rest_framework.permissions.SAFE_METHODS`. -/
def SAFE_METHODS : List Method := [Method.GET, Method.HEAD, Method.OPTIONS]

/-- Object-level permission of `IsOwnerOrReadOnly` (`tasks_api/permissions.py`):
reads are always allowed, writes only when `obj.user == request.user`. -/
def has_object_permission (m : Method) (caller : User) (obj : Task) : Bool :=
  if m ∈ SAFE_METHODS then true
  else obj.user == caller.id

/-- Error outcomes of a request, as DRF surfaces them. -/
inductive ApiError where
  | notFound
  | forbidden
  | validationError
deriving DecidableEq

/-- Lexicographic comparison of character sequences by code point; this is the
order `order_by('title')` imposes on title strings. -/
def lexLe : List Char → List Char → Bool
  | [], _ => true
  | _ :: _, [] => false
  | a :: as, b :: bs =>
    if a.toNat < b.toNat then true
    else if b.toNat < a.toNat then false
    else lexLe as bs

/-- Lexicographic order on strings, via their character data. -/
def strLe (a b : String) : Bool := lexLe a.data b.data

/-- Comparison of two tasks by title, the sort key of `get_queryset`. -/
def titleLe (a b : Task) : Bool := strLe a.title b.title

/-- Insertion of a task into a title-sorted list. -/
def insertSorted (t : Task) : List Task → List Task
  | [] => [t]
  | x :: xs => if titleLe t x then t :: x :: xs else x :: insertSorted t xs

/-- Sorting by title, ascending: the model of `.order_by('title')`. -/
def order_by_title : List Task → List Task
  | [] => []
  | x :: xs => insertSorted x (order_by_title xs)

/-- The queryset of `TasksViewSet.get_queryset` (`tasks_api/views.py`): staff
users get every task, other users only the tasks whose `user` is the caller;
both branches are ordered by title. -/
def get_queryset (db : List Task) (caller : User) : List Task :=
  if caller.is_staff then order_by_title db
  else order_by_title (db.filter (fun t => t.user == caller.id))

/-- The `DjangoFilterBackend` with `filterset_fields = ['status']`: an exact
match filter applied to the queryset the view produced. -/
def filter_by_status (s : Option Status) (l : List Task) : List Task :=
  match s with
  | none => l
  | some st => l.filter (fun t => t.status == st)

/-- The list endpoint: visibility restriction (with ordering) first, then the
optional status filter. -/
def list_tasks (db : Db) (caller : User) (s : Option Status) : List Task :=
  filter_by_status s (get_queryset db.tasks caller)

/-- Object lookup of the detail routes: DRF's `get_object` finds the record in
the (visibility-restricted) queryset — a miss is a 404 — and then runs the
object-level permission check — a denial is a 403. -/
def get_object (db : List Task) (caller : User) (tid : Nat) (m : Method) :
    Except ApiError Task :=
  match (get_queryset db caller).find? (fun t => t.id == tid) with
  | none => Except.error ApiError.notFound
  | some t =>
    if has_object_permission m caller t then Except.ok t
    else Except.error ApiError.forbidden

/-- The retrieve endpoint (`GET /api/tasks/{id}/`): a safe method, so the
object permission always passes; failure is reported as `NotFound`. -/
def retrieve (db : Db) (caller : User) (tid : Nat) : Option Task :=
  match get_object db.tasks caller tid Method.GET with
  | Except.ok t => some t
  | Except.error _ => none

/-- A request body as the serializer receives it: each field may be omitted;
`status` arrives as a raw string still to be validated; `user` may be supplied
by the client but the serializer declares it read-only. -/
structure RawPayload where
  title : Option String
  description : Option String
  status : Option String
  user : Option Nat
deriving DecidableEq

/-- Title validation of the serializer's `CharField`: required non-blank
(`blank=False`) and at most 255 characters (`max_length=255`). -/
def validTitle (s : String) : Bool := (s != "") && decide (s.length ≤ 255)

/-- Validation of the optional title field: `required` is true on a full
update or create (title must be present), false on a PATCH. -/
def validate_title (required : Bool) (s : Option String) :
    Except ApiError (Option String) :=
  match s with
  | none => if required then Except.error ApiError.validationError else Except.ok none
  | some t => if validTitle t then Except.ok (some t) else Except.error ApiError.validationError

/-- Validation of the optional status field against the enum choices. -/
def validate_status (s : Option String) : Except ApiError (Option Status) :=
  match s with
  | none => Except.ok none
  | some str =>
    match parseStatus str with
    | none => Except.error ApiError.validationError
    | some st => Except.ok (some st)

/-- The create endpoint (`POST /api/tasks/`): validate title and status, then
`TasksSerializer.create` builds the record with `user` taken from the request
context — the payload's `user` field is read-only and never consulted — and
`status` defaulting to `New` when omitted. Exactly one record is appended. -/
def run_create (db : Db) (caller : User) (p : RawPayload) :
    Except ApiError (Db × Task) :=
  match validate_title true p.title with
  | Except.error e => Except.error e
  | Except.ok none => Except.error ApiError.validationError
  | Except.ok (some t) =>
    match validate_status p.status with
    | Except.error e => Except.error e
    | Except.ok stOpt =>
      let task : Task :=
        { id := db.nextId, title := t, description := p.description,
          status := stOpt.getD Status.new, user := caller.id }
      Except.ok ({ tasks := db.tasks ++ [task], nextId := db.nextId + 1 }, task)

/-- The update endpoints (`PUT`/`PATCH /api/tasks/{id}/`): object lookup and
permission check first, then field validation; only the supplied fields are
written back (`ModelSerializer.update` touches only validated fields), the
read-only `user` field and the id never change. `PUT` requires a title,
`PATCH` does not. -/
def run_update (db : Db) (caller : User) (tid : Nat) (m : Method)
    (p : RawPayload) : Except ApiError (Db × Task) :=
  match get_object db.tasks caller tid m with
  | Except.error e => Except.error e
  | Except.ok t =>
    match validate_title (m == Method.PUT) p.title with
    | Except.error e => Except.error e
    | Except.ok titleOpt =>
      match validate_status p.status with
      | Except.error e => Except.error e
      | Except.ok stOpt =>
        let t' : Task :=
          { id := t.id, title := titleOpt.getD t.title,
            description := match p.description with
                           | none => t.description
                           | some d => some d,
            status := stOpt.getD t.status, user := t.user }
        Except.ok
          ({ tasks := db.tasks.map (fun x => if x.id == t.id then t' else x),
             nextId := db.nextId }, t')

/-- The delete endpoint (`DELETE /api/tasks/{id}/`): object lookup and
permission check as for update; on success the record is removed. -/
def run_destroy (db : Db) (caller : User) (tid : Nat) : Except ApiError Db :=
  match get_object db.tasks caller tid Method.DELETE with
  | Except.error e => Except.error e
  | Except.ok t =>
    Except.ok { tasks := db.tasks.filter (fun x => !(x.id == t.id)),
                nextId := db.nextId }

/-- Database state after an update request: unchanged when the request failed. -/
def db_after_update (db : Db) (caller : User) (tid : Nat) (m : Method)
    (p : RawPayload) : Db :=
  match run_update db caller tid m p with
  | Except.ok r => r.1
  | Except.error _ => db

/-- Database state after a delete request: unchanged when the request failed. -/
def db_after_destroy (db : Db) (caller : User) (tid : Nat) : Db :=
  match run_destroy db caller tid with
  | Except.ok d => d
  | Except.error _ => db

/-- Database state after a create request: unchanged when the request failed. -/
def db_after_create (db : Db) (caller : User) (p : RawPayload) : Db :=
  match run_create db caller p with
  | Except.ok r => r.1
  | Except.error _ => db

/-- Cascade of `on_delete=models.CASCADE` on the task's `user` foreign key
(`tasks_api/models.py`): deleting a user deletes every task the user owns. -/
def delete_user (db : Db) (uid : Nat) : Db :=
  { tasks := db.tasks.filter (fun t => !(t.user == uid)), nextId := db.nextId }

/-- Referential integrity predicate: every task's owner is an existing user. -/
def owners_exist (db : Db) (users : List Nat) : Prop :=
  ∀ t ∈ db.tasks, t.user ∈ users

/-- Transitivity of the lexicographic comparison on character sequences. -/
theorem lexLe_trans (a : List Char) : ∀ b c : List Char,
    lexLe a b = true → lexLe b c = true → lexLe a c = true := by
  induction a with
  | nil => intro b c _ _; rfl
  | cons x xs ih =>
    intro b c h1 h2
    cases b with
    | nil => simp [lexLe] at h1
    | cons y ys =>
      cases c with
      | nil => simp [lexLe] at h2
      | cons z zs =>
        simp only [lexLe] at h1 h2 ⊢
        by_cases hxy : x.toNat < y.toNat
        · by_cases hyz : y.toNat < z.toNat
          · have hxz : x.toNat < z.toNat := Nat.lt_trans hxy hyz
            simp [hxz]
          · simp only [if_neg hyz] at h2
            by_cases hzy : z.toNat < y.toNat
            · simp [hzy] at h2
            · have hxz : x.toNat < z.toNat := by omega
              simp [hxz]
        · simp only [if_neg hxy] at h1
          by_cases hyx : y.toNat < x.toNat
          · simp [hyx] at h1
          · simp only [if_neg hyx] at h1
            by_cases hyz : y.toNat < z.toNat
            · have hxz : x.toNat < z.toNat := by omega
              simp [hxz]
            · simp only [if_neg hyz] at h2
              by_cases hzy : z.toNat < y.toNat
              · simp [hzy] at h2
              · simp only [if_neg hzy] at h2
                have hxz : ¬ x.toNat < z.toNat := by omega
                have hzx : ¬ z.toNat < x.toNat := by omega
                simp only [if_neg hxz, if_neg hzx]
                exact ih ys zs h1 h2

/-- Totality of the lexicographic comparison on character sequences. -/
theorem lexLe_total (a : List Char) : ∀ b : List Char,
    lexLe a b = true ∨ lexLe b a = true := by
  induction a with
  | nil => intro b; left; rfl
  | cons x xs ih =>
    intro b
    cases b with
    | nil => right; rfl
    | cons y ys =>
      simp only [lexLe]
      by_cases hxy : x.toNat < y.toNat
      · left; simp [hxy]
      · by_cases hyx : y.toNat < x.toNat
        · right; simp [hyx]
        · rcases ih ys with h | h
          · left; simp [hxy, hyx, h]
          · right; simp [hxy, hyx, h]

/-- Transitivity of the title comparison on tasks. -/
theorem titleLe_trans (a b c : Task) (h1 : titleLe a b = true)
    (h2 : titleLe b c = true) : titleLe a c = true :=
  lexLe_trans a.title.data b.title.data c.title.data h1 h2

/-- Totality of the title comparison on tasks. -/
theorem titleLe_total (a b : Task) : titleLe a b = true ∨ titleLe b a = true :=
  lexLe_total a.title.data b.title.data

/-- Inserting into a list permutes consing onto it. -/
theorem perm_insertSorted (t : Task) (l : List Task) :
    (insertSorted t l).Perm (t :: l) := by
  induction l with
  | nil => exact List.Perm.refl _
  | cons x xs ih =>
    simp only [insertSorted]
    split
    · exact List.Perm.refl _
    · exact (ih.cons x).trans (List.Perm.swap t x xs)

/-- Sorting by title permutes the input list. -/
theorem perm_order_by_title (l : List Task) : (order_by_title l).Perm l := by
  induction l with
  | nil => exact List.Perm.refl _
  | cons x xs ih => exact (perm_insertSorted x (order_by_title xs)).trans (ih.cons x)

/-- Membership is preserved by the title sort. -/
theorem mem_order_by_title (t : Task) (l : List Task) :
    t ∈ order_by_title l ↔ t ∈ l :=
  (perm_order_by_title l).mem_iff

/-- Insertion into a title-sorted list keeps it title-sorted. -/
theorem pairwise_insertSorted (t : Task) (l : List Task)
    (h : l.Pairwise (fun a b => titleLe a b = true)) :
    (insertSorted t l).Pairwise (fun a b => titleLe a b = true) := by
  induction l with
  | nil => simp [insertSorted]
  | cons x xs ih =>
    simp only [insertSorted]
    rw [List.pairwise_cons] at h
    split
    · rename_i hle
      rw [List.pairwise_cons]
      refine ⟨?_, List.pairwise_cons.mpr h⟩
      intro b hb
      rcases List.mem_cons.mp hb with rfl | hb
      · exact hle
      · exact titleLe_trans t x b hle (h.1 b hb)
    · rename_i hnle
      have hxt : titleLe x t = true := by
        rcases titleLe_total t x with htx | hxt
        · exact absurd htx hnle
        · exact hxt
      rw [List.pairwise_cons]
      refine ⟨?_, ih h.2⟩
      intro b hb
      rcases List.mem_cons.mp ((perm_insertSorted t xs).mem_iff.mp hb) with rfl | hmem
      · exact hxt
      · exact h.1 b hmem

/-- The result of the title sort is pairwise ordered by title. -/
theorem pairwise_order_by_title (l : List Task) :
    (order_by_title l).Pairwise (fun a b => titleLe a b = true) := by
  induction l with
  | nil => exact List.Pairwise.nil
  | cons x xs ih => exact pairwise_insertSorted x (order_by_title xs) ih

/-- Staff callers' queryset membership is membership in the whole store. -/
theorem mem_get_queryset_staff (db : List Task) (caller : User)
    (hs : caller.is_staff = true) (t : Task) :
    t ∈ get_queryset db caller ↔ t ∈ db := by
  unfold get_queryset
  simp [hs, mem_order_by_title]

/-- Non-staff callers' queryset membership is ownership-restricted membership. -/
theorem mem_get_queryset_nonstaff (db : List Task) (caller : User)
    (hs : caller.is_staff = false) (t : Task) :
    t ∈ get_queryset db caller ↔ t ∈ db ∧ t.user = caller.id := by
  unfold get_queryset
  simp [hs, mem_order_by_title, List.mem_filter]

/-- Object permission always passes for the safe method `GET`. -/
theorem get_perm_true (caller : User) (t : Task) :
    has_object_permission Method.GET caller t = true := rfl

/-- The retrieve endpoint is exactly a lookup in the caller's queryset. -/
theorem retrieve_eq_find (db : Db) (caller : User) (tid : Nat) :
    retrieve db caller tid =
      (get_queryset db.tasks caller).find? (fun t => t.id == tid) := by
  unfold retrieve get_object
  cases hfind : (get_queryset db.tasks caller).find? (fun t => t.id == tid) with
  | none => simp [hfind]
  | some t => simp [hfind, get_perm_true caller t]

/-- Sample data for witnesses: two regular users, one staff user, two tasks. -/
def aliceUser : User := ⟨1, false⟩

/-- Second regular user of the witness data. -/
def bobUser : User := ⟨2, false⟩

/-- Staff user of the witness data. -/
def staffUser : User := ⟨3, true⟩

/-- Task owned by the first user. -/
def taskA : Task := ⟨1, "Alpha", none, Status.new, 1⟩

/-- Task owned by the second user. -/
def taskB : Task := ⟨2, "Beta", some ("desc"), Status.completed, 2⟩

/-- Sample store holding both tasks. -/
def sampleDb : Db := ⟨[taskB, taskA], 3⟩

/-- C1: an administrator's listing contains every existing task; a
non-administrator's listing contains a task exactly when the caller owns it. -/
theorem C1_listVisible_membership (db : Db) (caller : User) (t : Task) :
    (caller.is_staff = true → (t ∈ list_tasks db caller none ↔ t ∈ db.tasks)) ∧
    (caller.is_staff = false →
      (t ∈ list_tasks db caller none ↔ t ∈ db.tasks ∧ t.user = caller.id)) := by
  constructor
  · intro hs
    show t ∈ get_queryset db.tasks caller ↔ t ∈ db.tasks
    exact mem_get_queryset_staff db.tasks caller hs t
  · intro hs
    show t ∈ get_queryset db.tasks caller ↔ t ∈ db.tasks ∧ t.user = caller.id
    exact mem_get_queryset_nonstaff db.tasks caller hs t

/-- Witness for C1 at concrete data: the staff user sees a task another user
owns, and ownership decides visibility for a regular user. -/
theorem C1_listVisible_membership_witness :
    (taskA ∈ list_tasks sampleDb staffUser none ↔ taskA ∈ sampleDb.tasks) ∧
    (taskA ∈ list_tasks sampleDb bobUser none ↔
      taskA ∈ sampleDb.tasks ∧ taskA.user = bobUser.id) :=
  ⟨(C1_listVisible_membership sampleDb staffUser taskA).1 rfl,
   (C1_listVisible_membership sampleDb bobUser taskA).2 rfl⟩

/-- C4: the retrieve endpoint reports the single failure value `none` exactly
when every stored task with the requested id (if any) is invisible to the
caller — a missing id and a visibility denial are indistinguishable. -/
theorem C4_getOne_notFound_iff (db : Db) (caller : User) (tid : Nat) :
    retrieve db caller tid = none ↔
      ∀ t ∈ db.tasks, t.id = tid →
        caller.is_staff = false ∧ t.user ≠ caller.id := by
  rw [retrieve_eq_find, List.find?_eq_none]
  cases hs : caller.is_staff with
  | false =>
    constructor
    · intro h t ht htid
      refine ⟨rfl, fun hu => ?_⟩
      have hmem : t ∈ get_queryset db.tasks caller :=
        (mem_get_queryset_nonstaff db.tasks caller hs t).mpr ⟨ht, hu⟩
      exact h t hmem (by simp [htid])
    · intro h x hx
      rcases (mem_get_queryset_nonstaff db.tasks caller hs x).mp hx with ⟨hxdb, hxu⟩
      intro hbeq
      exact (h x hxdb (by simpa using hbeq)).2 hxu
  | true =>
    constructor
    · intro h t ht htid
      have hmem : t ∈ get_queryset db.tasks caller :=
        (mem_get_queryset_staff db.tasks caller hs t).mpr ht
      exact absurd (by simp [htid] : (t.id == tid) = true) (h t hmem)
    · intro h x hx hbeq
      have hxdb : x ∈ db.tasks := (mem_get_queryset_staff db.tasks caller hs x).mp hx
      exact absurd (h x hxdb (by simpa using hbeq)).1 (by simp)

/-- Witness for C4 at concrete data: a missing id and another user's task give
the caller the same `none` answer, and the owner does retrieve the task. -/
theorem C4_getOne_notFound_iff_witness :
    retrieve sampleDb bobUser 99 = none ∧
    retrieve sampleDb aliceUser 2 = none ∧
    retrieve sampleDb aliceUser 1 = some taskA := by
  refine ⟨(C4_getOne_notFound_iff sampleDb bobUser 99).mpr ?_,
          (C4_getOne_notFound_iff sampleDb aliceUser 2).mpr ?_, ?_⟩
  · decide
  · decide
  · decide

/-- C5: filtering by status happens after the visibility restriction: the
filtered listing is exactly the status-matching subset of the unfiltered
listing, and the filter never adds a task the caller could not already see. -/
theorem C5_status_filter (db : Db) (caller : User) (s : Status) :
    list_tasks db caller (some s) =
      (list_tasks db caller none).filter (fun t => t.status == s) ∧
    ∀ t ∈ list_tasks db caller (some s), t ∈ list_tasks db caller none := by
  constructor
  · rfl
  · intro t ht
    simp only [list_tasks, filter_by_status] at ht ⊢
    exact (List.mem_filter.mp ht).1

/-- Witness for C5 at concrete data: a concrete filtered membership implies
the unfiltered one. -/
theorem C5_status_filter_witness : taskA ∈ list_tasks sampleDb aliceUser none :=
  (C5_status_filter sampleDb aliceUser Status.new).2 taskA (by decide)

/-- C9: every listing, with or without a status filter, is pairwise ordered by
title, ascending, in the lexicographic (code-point) order on strings. -/
theorem C9_ordered_by_title (db : Db) (caller : User) (s : Option Status) :
    (list_tasks db caller s).Pairwise (fun a b => strLe a.title b.title = true) := by
  have hq : (get_queryset db.tasks caller).Pairwise
      (fun a b => titleLe a b = true) := by
    unfold get_queryset
    split
    · exact pairwise_order_by_title db.tasks
    · exact pairwise_order_by_title (db.tasks.filter (fun t => t.user == caller.id))
  unfold list_tasks filter_by_status
  cases s with
  | none => exact hq
  | some st => exact hq.filter (fun t => t.status == st)

/-- Queryset membership implies membership in the store. -/
theorem mem_get_queryset_sub (db : List Task) (caller : User) (t : Task)
    (h : t ∈ get_queryset db caller) : t ∈ db := by
  unfold get_queryset at h
  split at h
  · exact (mem_order_by_title t db).mp h
  · exact (List.mem_filter.mp ((mem_order_by_title t _).mp h)).1

/-- Under unique ids, the queryset lookup of a member's id finds the member. -/
theorem find_unique_mem (l : List Task) (t : Task) (ht : t ∈ l)
    (huniq : ∀ t₁ ∈ l, ∀ t₂ ∈ l, t₁.id = t₂.id → t₁ = t₂) :
    l.find? (fun x => x.id == t.id) = some t := by
  cases hfind : l.find? (fun x => x.id == t.id) with
  | none => exact absurd (by simp) (List.find?_eq_none.mp hfind t ht)
  | some x =>
    have hx := List.find?_some hfind
    have hmem := List.mem_of_find?_eq_some hfind
    have hxt : x = t := huniq x hmem t ht (by simpa using hx)
    rw [hxt]

/-- A write method grants no object permission to a non-owner. -/
theorem write_perm_nonowner (m : Method) (caller : User) (t : Task)
    (hm : ¬ m ∈ SAFE_METHODS) (hown : t.user ≠ caller.id) :
    has_object_permission m caller t = false := by
  simp [has_object_permission, hm, hown]

/-- A found but permission-denied object lookup yields `Forbidden`. -/
theorem get_object_forbidden (db : List Task) (caller : User) (t : Task)
    (m : Method)
    (hfind : (get_queryset db caller).find? (fun x => x.id == t.id) = some t)
    (hperm : has_object_permission m caller t = false) :
    get_object db caller t.id m = Except.error ApiError.forbidden := by
  unfold get_object
  simp [hfind, hperm]

/-- A successful object lookup returns a record of the store. -/
theorem get_object_ok_mem (db : List Task) (caller : User) (tid : Nat)
    (m : Method) (t : Task) (h : get_object db caller tid m = Except.ok t) :
    t ∈ db := by
  unfold get_object at h
  cases hfind : (get_queryset db caller).find? (fun x => x.id == tid) with
  | none => rw [hfind] at h; cases h
  | some x =>
    rw [hfind] at h
    by_cases hp : has_object_permission m caller x = true
    · simp only [hp, if_true] at h
      injection h with h
      subst h
      exact mem_get_queryset_sub db caller _ (List.mem_of_find?_eq_some hfind)
    · simp [hp] at h

/-- The create endpoint never reads the payload's read-only `user` field. -/
theorem run_create_ignores_user (db : Db) (caller : User) (p : RawPayload)
    (u : Option Nat) :
    run_create db caller ⟨p.title, p.description, p.status, u⟩ =
      run_create db caller p := rfl

/-- The update endpoint never reads the payload's read-only `user` field. -/
theorem run_update_ignores_user (db : Db) (caller : User) (tid : Nat)
    (m : Method) (p : RawPayload) (u : Option Nat) :
    run_update db caller tid m ⟨p.title, p.description, p.status, u⟩ =
      run_update db caller tid m p := rfl

/-- Shape of a successful create: one record appended, owned by the caller,
carrying the next id, with status defaulted to `New` when omitted. -/
theorem run_create_ok (db : Db) (caller : User) (p : RawPayload) (db' : Db)
    (task : Task) (h : run_create db caller p = Except.ok (db', task)) :
    db'.tasks = db.tasks ++ [task] ∧ task.user = caller.id ∧
    task.id = db.nextId ∧ (p.status = none → task.status = Status.new) := by
  unfold run_create at h
  cases hv : validate_title true p.title with
  | error e => rw [hv] at h; cases h
  | ok topt =>
    rw [hv] at h
    cases topt with
    | none => cases h
    | some ti =>
      cases hs : validate_status p.status with
      | error e => rw [hs] at h; cases h
      | ok stOpt =>
        rw [hs] at h
        injection h with h
        obtain ⟨hdb, htask⟩ := Prod.mk.injEq _ _ _ _ ▸ h
        subst hdb
        subst htask
        refine ⟨rfl, rfl, rfl, ?_⟩
        intro hps
        rw [hps] at hs
        have hnone : stOpt = none := by
          simpa [validate_status] using hs.symm
        rw [hnone]
        rfl

/-- Shape of a successful update: some record of the store was found and
authorized, and it is replaced (keyed by id) by a record that keeps the old
owner, id, and every omitted field. -/
theorem run_update_ok (db : Db) (caller : User) (tid : Nat) (m : Method)
    (p : RawPayload) (db' : Db) (t' : Task)
    (h : run_update db caller tid m p = Except.ok (db', t')) :
    ∃ t, get_object db.tasks caller tid m = Except.ok t ∧
      t'.user = t.user ∧ t'.id = t.id ∧
      db'.tasks = db.tasks.map (fun x => if x.id == t.id then t' else x) ∧
      db'.nextId = db.nextId ∧
      (p.title = none → t'.title = t.title) ∧
      (p.description = none → t'.description = t.description) ∧
      (p.status = none → t'.status = t.status) := by
  unfold run_update at h
  cases hobj : get_object db.tasks caller tid m with
  | error e => rw [hobj] at h; cases h
  | ok t =>
    rw [hobj] at h
    refine ⟨t, rfl, ?_⟩
    cases hv : validate_title (m == Method.PUT) p.title with
    | error e => rw [hv] at h; cases h
    | ok topt =>
      rw [hv] at h
      cases hs : validate_status p.status with
      | error e => rw [hs] at h; cases h
      | ok stOpt =>
        rw [hs] at h
        injection h with h
        obtain ⟨hdb, ht'⟩ := Prod.mk.injEq _ _ _ _ ▸ h
        subst hdb
        subst ht'
        refine ⟨rfl, rfl, rfl, rfl, ?_, ?_, ?_⟩
        · intro hp
          rw [hp] at hv
          have : topt = none := by
            simp only [validate_title] at hv
            split at hv
            · cases hv
            · exact (Except.ok.injEq _ _ |>.mp hv).symm
          rw [this]
          rfl
        · intro hp
          simp [hp]
        · intro hp
          rw [hp] at hs
          have : stOpt = none := by
            simpa [validate_status] using hs.symm
          rw [this]
          rfl

/-- Shape of a successful delete: some record was found and authorized, and
exactly the records with its id are removed. -/
theorem run_destroy_ok (db : Db) (caller : User) (tid : Nat) (db' : Db)
    (h : run_destroy db caller tid = Except.ok db') :
    ∃ t, get_object db.tasks caller tid Method.DELETE = Except.ok t ∧
      db'.tasks = db.tasks.filter (fun x => !(x.id == t.id)) ∧
      db'.nextId = db.nextId := by
  unfold run_destroy at h
  cases hobj : get_object db.tasks caller tid Method.DELETE with
  | error e => rw [hobj] at h; cases h
  | ok t =>
    rw [hobj] at h
    injection h with h
    subst h
    exact ⟨t, rfl, rfl, rfl⟩

/-- Empty request body. -/
def emptyPayload : RawPayload := ⟨none, none, none, none⟩

/-- Create request body that also (illegitimately) supplies an owner. -/
def createPayload : RawPayload := ⟨some ("Gamma"), none, none, some 42⟩

/-- The record the sample create request produces. -/
def gammaTask : Task := ⟨3, "Gamma", none, Status.new, 1⟩

/-- The sample store after the sample create request. -/
def sampleDbCreated : Db := ⟨[taskB, taskA, gammaTask], 4⟩

/-- Patch request body supplying only a status (and an ignored owner). -/
def patchPayload : RawPayload := ⟨none, none, some ("In Progress"), some 99⟩

/-- The first task after the sample patch request. -/
def taskAProg : Task := ⟨1, "Alpha", none, Status.inProgress, 1⟩

/-- The sample store after the sample patch request. -/
def sampleDbPatched : Db := ⟨[taskB, taskAProg], 3⟩

/-- C2 as stated is false of the code: `IsOwnerOrReadOnly` grants write
permission only to the owner and never consults the staff flag, so a staff
caller who does not own the task is denied update and delete (with
`Forbidden`) — here concretely on a store with one task of user 1 and the
staff caller of id 3, even with a fully valid replacement payload. -/
theorem C2_admin_write_counterexample :
    run_update sampleDb staffUser 1 Method.PATCH emptyPayload =
      Except.error ApiError.forbidden ∧
    run_update sampleDb staffUser 1 Method.PUT
      ⟨some ("Alpha2"), none, none, none⟩ = Except.error ApiError.forbidden ∧
    run_destroy sampleDb staffUser 1 = Except.error ApiError.forbidden :=
  ⟨rfl, rfl, rfl⟩

/-- C2 amended: an administrator sees (and can retrieve) every task, but
ownership still gates mutation — an administrator who does not own a task is
served `Forbidden` for update and delete; only the owner may mutate. -/
theorem C2_admin_write_amended (db : Db) (caller : User) (t : Task)
    (p : RawPayload) (hstaff : caller.is_staff = true) (ht : t ∈ db.tasks)
    (hown : t.user ≠ caller.id)
    (huniq : ∀ t₁ ∈ db.tasks, ∀ t₂ ∈ db.tasks, t₁.id = t₂.id → t₁ = t₂) :
    retrieve db caller t.id = some t ∧
    run_update db caller t.id Method.PATCH p = Except.error ApiError.forbidden ∧
    run_update db caller t.id Method.PUT p = Except.error ApiError.forbidden ∧
    run_destroy db caller t.id = Except.error ApiError.forbidden := by
  have hqs : t ∈ get_queryset db.tasks caller :=
    (mem_get_queryset_staff db.tasks caller hstaff t).mpr ht
  have huq : ∀ t₁ ∈ get_queryset db.tasks caller,
      ∀ t₂ ∈ get_queryset db.tasks caller, t₁.id = t₂.id → t₁ = t₂ := by
    intro t₁ h1 t₂ h2 he
    exact huniq t₁ (mem_get_queryset_sub db.tasks caller t₁ h1)
      t₂ (mem_get_queryset_sub db.tasks caller t₂ h2) he
  have hfind := find_unique_mem (get_queryset db.tasks caller) t hqs huq
  have hforb : ∀ m : Method, ¬ m ∈ SAFE_METHODS →
      get_object db.tasks caller t.id m = Except.error ApiError.forbidden :=
    fun m hm => get_object_forbidden db.tasks caller t m hfind
      (write_perm_nonowner m caller t hm hown)
  refine ⟨?_, ?_, ?_, ?_⟩
  · rw [retrieve_eq_find, hfind]
  · simp [run_update, hforb Method.PATCH (by decide)]
  · simp [run_update, hforb Method.PUT (by decide)]
  · simp [run_destroy, hforb Method.DELETE (by decide)]

/-- Witness for the amended C2 at concrete data: the staff user retrieves
user 1's task but cannot update or delete it. -/
theorem C2_admin_write_amended_witness :
    retrieve sampleDb staffUser taskA.id = some taskA ∧
    run_update sampleDb staffUser taskA.id Method.PATCH emptyPayload =
      Except.error ApiError.forbidden ∧
    run_update sampleDb staffUser taskA.id Method.PUT emptyPayload =
      Except.error ApiError.forbidden ∧
    run_destroy sampleDb staffUser taskA.id =
      Except.error ApiError.forbidden :=
  C2_admin_write_amended sampleDb staffUser taskA emptyPayload rfl
    (by decide) (by decide) (by decide)

/-- C3: a successful create owns the record to the caller (whatever owner the
payload supplied — the read-only field is never consulted), assigns the fresh
next id, defaults status to `New` when omitted, and appends exactly one
record. -/
theorem C3_create_semantics (db : Db) (caller : User) (p : RawPayload)
    (db' : Db) (task : Task)
    (hfresh : ∀ t ∈ db.tasks, t.id ≠ db.nextId)
    (h : run_create db caller p = Except.ok (db', task)) :
    task.user = caller.id ∧
    task.id = db.nextId ∧
    (∀ t ∈ db.tasks, t.id ≠ task.id) ∧
    (p.status = none → task.status = Status.new) ∧
    db'.tasks = db.tasks ++ [task] ∧
    (∀ u, run_create db caller ⟨p.title, p.description, p.status, u⟩ =
      Except.ok (db', task)) := by
  obtain ⟨hdb, huser, hid, hst⟩ := run_create_ok db caller p db' task h
  refine ⟨huser, hid, ?_, hst, hdb,
    fun u => (run_create_ignores_user db caller p u).trans h⟩
  intro t ht
  rw [hid]
  exact hfresh t ht

/-- Witness for C3 at concrete data: the sample create request (whose payload
names user 42 as owner) stores one task owned by the caller with id 3. -/
theorem C3_create_semantics_witness :
    gammaTask.user = aliceUser.id ∧
    gammaTask.id = sampleDb.nextId ∧
    (∀ t ∈ sampleDb.tasks, t.id ≠ gammaTask.id) ∧
    (createPayload.status = none → gammaTask.status = Status.new) ∧
    sampleDbCreated.tasks = sampleDb.tasks ++ [gammaTask] ∧
    (∀ u, run_create sampleDb aliceUser
        ⟨createPayload.title, createPayload.description, createPayload.status, u⟩ =
      Except.ok (sampleDbCreated, gammaTask)) :=
  C3_create_semantics sampleDb aliceUser createPayload sampleDbCreated gammaTask
    (by decide) rfl

/-- C6: an authenticated non-staff caller who does not own a task (ids being
unique) gets `NotFound` from update and delete on it, and the store is left
unchanged in every field. -/
theorem C6_nonowner_write_denied (db : Db) (caller : User) (t : Task)
    (p : RawPayload) (hstaff : caller.is_staff = false) (ht : t ∈ db.tasks)
    (hown : t.user ≠ caller.id)
    (huniq : ∀ t₁ ∈ db.tasks, ∀ t₂ ∈ db.tasks, t₁.id = t₂.id → t₁ = t₂) :
    run_update db caller t.id Method.PUT p = Except.error ApiError.notFound ∧
    run_update db caller t.id Method.PATCH p = Except.error ApiError.notFound ∧
    run_destroy db caller t.id = Except.error ApiError.notFound ∧
    db_after_update db caller t.id Method.PUT p = db ∧
    db_after_update db caller t.id Method.PATCH p = db ∧
    db_after_destroy db caller t.id = db := by
  have hfind : (get_queryset db.tasks caller).find? (fun x => x.id == t.id) =
      none := by
    rw [List.find?_eq_none]
    intro x hx
    rcases (mem_get_queryset_nonstaff db.tasks caller hstaff x).mp hx with
      ⟨hxdb, hxu⟩
    intro hbeq
    have hxid : x.id = t.id := by simpa using hbeq
    have hxt : x = t := huniq x hxdb t ht hxid
    rw [hxt] at hxu
    exact hown hxu
  have hobj : ∀ m : Method,
      get_object db.tasks caller t.id m = Except.error ApiError.notFound := by
    intro m
    unfold get_object
    rw [hfind]
  refine ⟨?_, ?_, ?_, ?_, ?_, ?_⟩ <;>
    simp [run_update, run_destroy, db_after_update, db_after_destroy, hobj]

/-- Witness for C6 at concrete data: user 2 can neither update nor delete
user 1's task, and the store is unchanged after both attempts. -/
theorem C6_nonowner_write_denied_witness :
    run_update sampleDb bobUser taskA.id Method.PUT emptyPayload =
      Except.error ApiError.notFound ∧
    run_update sampleDb bobUser taskA.id Method.PATCH emptyPayload =
      Except.error ApiError.notFound ∧
    run_destroy sampleDb bobUser taskA.id = Except.error ApiError.notFound ∧
    db_after_update sampleDb bobUser taskA.id Method.PUT emptyPayload =
      sampleDb ∧
    db_after_update sampleDb bobUser taskA.id Method.PATCH emptyPayload =
      sampleDb ∧
    db_after_destroy sampleDb bobUser taskA.id = sampleDb :=
  C6_nonowner_write_denied sampleDb bobUser taskA emptyPayload rfl
    (by decide) (by decide) (by decide)

/-- C7: a create request with an empty title, an over-long title, or an
unrecognized status value fails with `ValidationError` and creates no record. -/
theorem C7_create_validation (db : Db) (caller : User) (p : RawPayload)
    (h : p.title = some ("") ∨
         (∃ s, p.title = some s ∧ 255 < s.length) ∨
         (∃ s, p.status = some s ∧ parseStatus s = none)) :
    run_create db caller p = Except.error ApiError.validationError ∧
    db_after_create db caller p = db := by
  have hmain : run_create db caller p = Except.error ApiError.validationError := by
    rcases h with hp | ⟨s, hp, hlen⟩ | ⟨s, hp, hpar⟩
    · have hvt : validTitle ("") = false := rfl
      simp [run_create, hp, validate_title, hvt]
    · have hvt : validTitle s = false := by
        unfold validTitle
        have hd : decide (s.length ≤ 255) = false := decide_eq_false (by omega)
        rw [hd, Bool.and_false]
      simp [run_create, hp, validate_title, hvt]
    · cases hto : p.title with
      | none => simp [run_create, hto, validate_title]
      | some ti =>
        cases hvt : validTitle ti with
        | false => simp [run_create, hto, validate_title, hvt]
        | true =>
          simp [run_create, hto, validate_title, hvt, validate_status, hp, hpar]
  exact ⟨hmain, by simp [db_after_create, hmain]⟩

/-- Witness for C7 at concrete data: an empty title is rejected and the store
is unchanged. -/
theorem C7_create_validation_witness :
    run_create sampleDb aliceUser ⟨some (""), none, none, none⟩ =
      Except.error ApiError.validationError ∧
    db_after_create sampleDb aliceUser ⟨some (""), none, none, none⟩ =
      sampleDb :=
  C7_create_validation sampleDb aliceUser ⟨some (""), none, none, none⟩
    (Or.inl rfl)

/-- C8: an authorized partial update changes only the supplied fields: every
omitted field keeps its previous value, the owner and the id never change
(whatever owner the payload names), and the store is rewritten only at the
updated record's id. -/
theorem C8_patch_update_frame (db : Db) (caller : User) (tid : Nat)
    (p : RawPayload) (t : Task) (db' : Db) (t' : Task)
    (hobj : get_object db.tasks caller tid Method.PATCH = Except.ok t)
    (h : run_update db caller tid Method.PATCH p = Except.ok (db', t')) :
    (p.title = none → t'.title = t.title) ∧
    (p.description = none → t'.description = t.description) ∧
    (p.status = none → t'.status = t.status) ∧
    t'.user = t.user ∧
    t'.id = t.id ∧
    db'.tasks = db.tasks.map (fun x => if x.id == t.id then t' else x) ∧
    (∀ u, run_update db caller tid Method.PATCH
        ⟨p.title, p.description, p.status, u⟩ = Except.ok (db', t')) := by
  obtain ⟨t₀, hobj₀, huser, hid, hdb, _, hti, hde, hst⟩ :=
    run_update_ok db caller tid Method.PATCH p db' t' h
  have ht₀ : t₀ = t := by
    have := hobj₀.symm.trans hobj
    injection this
  subst ht₀
  exact ⟨hti, hde, hst, huser, hid, hdb,
    fun u => (run_update_ignores_user db caller tid Method.PATCH p u).trans h⟩

/-- Witness for C8 at concrete data: patching only the status of user 1's
task keeps its title, description, owner and id, and rewrites just that
record. -/
theorem C8_patch_update_frame_witness :
    (patchPayload.title = none → taskAProg.title = taskA.title) ∧
    (patchPayload.description = none →
      taskAProg.description = taskA.description) ∧
    (patchPayload.status = none → taskAProg.status = taskA.status) ∧
    taskAProg.user = taskA.user ∧
    taskAProg.id = taskA.id ∧
    sampleDbPatched.tasks =
      sampleDb.tasks.map (fun x => if x.id == taskA.id then taskAProg else x) ∧
    (∀ u, run_update sampleDb aliceUser 1 Method.PATCH
        ⟨patchPayload.title, patchPayload.description, patchPayload.status, u⟩ =
      Except.ok (sampleDbPatched, taskAProg)) :=
  C8_patch_update_frame sampleDb aliceUser 1 patchPayload taskA
    sampleDbPatched taskAProg rfl rfl

/-- C10: the cascade of the owner foreign key removes every task of a deleted
user, and referential integrity — every task's owner is an existing user — is
preserved by user deletion, create, update, and delete. -/
theorem C10_owner_cascade :
    (∀ db uid, ∀ t ∈ (delete_user db uid).tasks, t.user ≠ uid) ∧
    (∀ db users uid, owners_exist db users →
      owners_exist (delete_user db uid) (users.filter (fun u => !(u == uid)))) ∧
    (∀ db users caller p, caller.id ∈ users → owners_exist db users →
      owners_exist (db_after_create db caller p) users) ∧
    (∀ db users caller tid m p, owners_exist db users →
      owners_exist (db_after_update db caller tid m p) users) ∧
    (∀ db users caller tid, owners_exist db users →
      owners_exist (db_after_destroy db caller tid) users) := by
  refine ⟨?_, ?_, ?_, ?_, ?_⟩
  · intro db uid t ht
    have := (List.mem_filter.mp ht).2
    simpa using this
  · intro db users uid h t ht
    rcases List.mem_filter.mp ht with ⟨htdb, htu⟩
    rw [List.mem_filter]
    exact ⟨h t htdb, htu⟩
  · intro db users caller p hc h
    unfold db_after_create
    cases hrc : run_create db caller p with
    | error e => exact h
    | ok r =>
      obtain ⟨hdb, huser, _, _⟩ := run_create_ok db caller p r.1 r.2 (by rw [hrc])
      intro t ht
      rw [hdb] at ht
      rcases List.mem_append.mp ht with htl | htr
      · exact h t htl
      · rw [List.mem_singleton.mp htr, huser]
        exact hc
  · intro db users caller tid m p h
    unfold db_after_update
    cases hru : run_update db caller tid m p with
    | error e => exact h
    | ok r =>
      obtain ⟨t₀, hobj₀, huser, _, hdb, _, _, _, _⟩ :=
        run_update_ok db caller tid m p r.1 r.2 (by rw [hru])
      intro t ht
      rw [hdb] at ht
      rcases List.mem_map.mp ht with ⟨x, hx, hxt⟩
      by_cases hxid : (x.id == t₀.id) = true
      · rw [if_pos hxid] at hxt
        rw [← hxt, huser]
        exact h t₀ (get_object_ok_mem db.tasks caller tid m t₀ hobj₀)
      · rw [if_neg hxid] at hxt
        rw [← hxt]
        exact h x hx
  · intro db users caller tid h
    unfold db_after_destroy
    cases hrd : run_destroy db caller tid with
    | error e => exact h
    | ok d =>
      obtain ⟨t₀, _, hdb, _⟩ := run_destroy_ok db caller tid d (by rw [hrd])
      intro t ht
      rw [hdb] at ht
      exact h t (List.mem_filter.mp ht).1

/-- Witness for C10 at concrete data: deleting user 1 removes their task, and
integrity over the user set {1, 2} survives a concrete delete request. -/
theorem C10_owner_cascade_witness :
    (∀ t ∈ (delete_user sampleDb 1).tasks, t.user ≠ 1) ∧
    owners_exist (db_after_destroy sampleDb aliceUser 1) [1, 2] :=
  ⟨C10_owner_cascade.1 sampleDb 1,
   C10_owner_cascade.2.2.2.2 sampleDb [1, 2] aliceUser 1
     (by intro t ht; fin_cases ht <;> decide)⟩

end Todo
